import Mathlib

set_option synthInstance.maxSize 2000

/-!
Verification of the bounding-box core of `scripts/add_bbox_to_arrow.py`.

The script walks a GeoArrow geometry column (one nested multipolygon per
row) and produces four numeric columns `minx, miny, maxx, maxy`, one
quadruple per row, using Python's builtin `min`/`max` over the collected
coordinates and `NaN` as the "no usable vertex" sentinel.

We model IEEE doubles shallowly as the type `F` below: `nan`, the two
infinities, and finite values represented by rationals.  The Python
comparison operators on floats (`<`, `<=`) are total Boolean functions
that return `False` whenever either operand is `nan`; `min`/`max` scan a
list keeping the first element and replacing the current best only when
the strict comparison succeeds, exactly as CPython does.  This captures
every behaviour the claims touch (ordering, NaN asymmetry, infinities);
it abstracts away signed zero and rounding, neither of which the code
exercises (no arithmetic is performed on coordinates, only comparison
and copying).
-/

namespace DT

/-- Model of a Python/IEEE double: NaN, +inf, -inf, or a finite value
(represented exactly as a rational; the code never does arithmetic on
coordinates, so finite doubles embed faithfully). -/
inductive F where
  | nan : F
  | pinf : F
  | ninf : F
  | val : ℚ → F
deriving DecidableEq, Repr

/-- Python `a < b` on floats: `False` whenever either side is NaN,
otherwise the usual extended-real strict order. -/
def flt : F → F → Bool
  | F.nan, _ => false
  | _, F.nan => false
  | F.ninf, F.ninf => false
  | F.ninf, _ => true
  | F.pinf, _ => false
  | F.val _, F.ninf => false
  | F.val _, F.pinf => true
  | F.val a, F.val b => decide (a < b)

/-- Python `a <= b` on floats: `False` whenever either side is NaN,
otherwise the usual extended-real order. -/
def fle : F → F → Bool
  | F.nan, _ => false
  | _, F.nan => false
  | F.ninf, _ => true
  | F.pinf, F.pinf => true
  | F.pinf, _ => false
  | F.val _, F.pinf => true
  | F.val _, F.ninf => false
  | F.val a, F.val b => decide (a ≤ b)

/-- CPython's builtin `min` on a nonempty list `x :: xs`: start from the
first element, replace the current best by `item` when `item < best`. -/
def pymin (x : F) (xs : List F) : F :=
  xs.foldl (fun best item => if flt item best then item else best) x

/-- CPython's builtin `max` on a nonempty list `x :: xs`: start from the
first element, replace the current best by `item` when `item > best`
(i.e. `best < item`). -/
def pymax (x : F) (xs : List F) : F :=
  xs.foldl (fun best item => if flt best item then item else best) x

/-- A vertex as decoded from the GeoArrow `struct<x, y>`: both fields
present (the Arrow struct type guarantees them). -/
abbrev Vertex := F × F

/-- A ring: a list of possibly-null vertices (`vertex is None` entries). -/
abbrev GRing := List (Option Vertex)

/-- A polygon: a list of possibly-null rings. -/
abbrev GPolygon := List (Option GRing)

/-- A multipolygon: a list of possibly-null polygons. -/
abbrev GMultiPolygon := List (Option GPolygon)

/-- A geometry cell: `none` models `polygon is None` (the row's geometry
is null), otherwise the decoded multipolygon. -/
abbrev Cell := Option GMultiPolygon

/-- The usable (non-None) vertices of a ring, in traversal order:
`for vertex in ring: if vertex is None: continue`. -/
def ringVertices (r : GRing) : List Vertex :=
  r.filterMap id

/-- The usable vertices of a polygon, in traversal order:
`for ring in poly: if ring is None: continue` then the inner loop. -/
def polygonVertices (p : GPolygon) : List Vertex :=
  (p.filterMap id).flatMap ringVertices

/-- The usable vertices of a multipolygon, in traversal order:
`for poly in polygon: if poly is None: continue` then the inner loops.
`all_x`/`all_y` in the source are the two coordinate projections of this
list. -/
def multiPolygonVertices (m : GMultiPolygon) : List Vertex :=
  (m.filterMap id).flatMap polygonVertices

/-- The usable vertices of a geometry cell (none when the cell is null). -/
def cellVertices (c : Cell) : List Vertex :=
  match c with
  | none => []
  | some m => multiPolygonVertices m

/-- The per-row body of `compute_bbox_from_geoarrow_polygon` (lines
34-61): a null cell yields the NaN sentinel; otherwise collect `all_x`,
`all_y` over all usable vertices and, when `all_x` is nonempty, return
`(min(all_x), min(all_y), max(all_x), max(all_y))` — the row's
`(minx, miny, maxx, maxy)` quadruple — else the NaN sentinel. -/
def rowBBox (c : Cell) : F × F × F × F :=
  match c with
  | none => (F.nan, F.nan, F.nan, F.nan)
  | some m =>
    match multiPolygonVertices m with
    | [] => (F.nan, F.nan, F.nan, F.nan)
    | v :: vs =>
      (pymin v.1 (vs.map Prod.fst), pymin v.2 (vs.map Prod.snd),
       pymax v.1 (vs.map Prod.fst), pymax v.2 (vs.map Prod.snd))

/-- One numpy output array of the main loop: starting from the seeded
array, write `pick (rowBBox c)` into slot `i` for each row `c`
(`minx[row_idx] = ...`). -/
def fillRows (pick : Cell → F) : List Cell → Nat → List F → List F
  | [], _, arr => arr
  | c :: cs, i, arr => fillRows pick cs (i + 1) (arr.set i (pick c))

/-- `compute_bbox_from_geoarrow_polygon` (lines 14-63): seed the four
arrays (`np.full(n_rows, inf)` for the minima, `np.full(n_rows, -inf)`
for the maxima), then overwrite slot `row_idx` of each with that row's
quadruple.  Returns `(minx, miny, maxx, maxy)`. -/
def compute_bbox_from_geoarrow_polygon (col : List Cell) :
    List F × List F × List F × List F :=
  (fillRows (fun c => (rowBBox c).1) col 0 (List.replicate col.length F.pinf),
   fillRows (fun c => (rowBBox c).2.1) col 0 (List.replicate col.length F.pinf),
   fillRows (fun c => (rowBBox c).2.2.1) col 0 (List.replicate col.length F.ninf),
   fillRows (fun c => (rowBBox c).2.2.2) col 0 (List.replicate col.length F.ninf))

/-- A column's payload in the table model: a geometry column, a float64
column (as produced for the bbox outputs), or some other column whose
contents the augmenter never inspects. -/
inductive ColData where
  | geomData : List Cell → ColData
  | floatData : List F → ColData
  | otherData : ColData
deriving DecidableEq

/-- An in-memory Arrow table, as far as `add_bbox_columns` observes it:
an ordered list of named columns. -/
structure Table where
  cols : List (String × ColData)
deriving DecidableEq

/-- `table.column_names`. -/
def Table.columnNames (t : Table) : List String :=
  t.cols.map Prod.fst

/-- `table.column(name)`: the first column with the given name, if any
(pyarrow raises `KeyError` when the name is absent). -/
def Table.column (t : Table) (name : String) : Option ColData :=
  (t.cols.find? (fun p => p.1 == name)).map Prod.snd

/-- Observable outcome of one `add_bbox_columns` run: the guard
short-circuited (nothing computed, nothing written), the augmented table
was written to the output path, or the run aborted with an uncaught
exception (no output written). -/
inductive AugmentResult where
  | skipped : AugmentResult
  | written : Table → AugmentResult
  | failed : AugmentResult
deriving DecidableEq

/-- `add_bbox_columns` (lines 66-102) after the input table has been
read: if `'bbox_minx' in existing_cols` return without writing; else
look up the `geometry` column (`KeyError` if absent — modelled as
`failed`, as is a `geometry` column not holding geometry data, on which
the row loop would raise), compute the four bbox arrays, append them in
order and write the result. -/
def add_bbox_columns (t : Table) : AugmentResult :=
  if "bbox_minx" ∈ t.columnNames then AugmentResult.skipped
  else
    match t.column "geometry" with
    | some (ColData.geomData g) =>
      let r := compute_bbox_from_geoarrow_polygon g
      AugmentResult.written ⟨t.cols ++
        [("bbox_minx", ColData.floatData r.1),
         ("bbox_miny", ColData.floatData r.2.1),
         ("bbox_maxx", ColData.floatData r.2.2.1),
         ("bbox_maxy", ColData.floatData r.2.2.2)]⟩
    | _ => AugmentResult.failed

/-- A vertex value as the Python code actually sees it before field
access: a dict that may lack the `x` or the `y` key (`none` = key
absent).  The Arrow struct type always supplies both keys, but the
Python loop body itself (lines 49-53) is defined on arbitrary dicts. -/
structure RawVertex where
  xField : Option F
  yField : Option F
deriving DecidableEq

/-- Raw ring/polygon/multipolygon: as above but with raw vertices. -/
abbrev RawRing := List (Option RawVertex)

/-- Raw polygon. -/
abbrev RawPolygon := List (Option RawRing)

/-- Raw multipolygon. -/
abbrev RawMultiPolygon := List (Option RawPolygon)

/-- The innermost loop on raw vertices: skip `None` entries, then
evaluate `vertex['x']` and `vertex['y']` — a missing key raises
`KeyError`, modelled as `Except.error ()`; otherwise append to the
accumulated `(all_x, all_y)`. -/
def rawRingCollect (acc : List F × List F) : RawRing → Except Unit (List F × List F)
  | [] => Except.ok acc
  | none :: vs => rawRingCollect acc vs
  | some v :: vs =>
    match v.xField with
    | none => Except.error ()
    | some x =>
      match v.yField with
      | none => Except.error ()
      | some y => rawRingCollect (acc.1 ++ [x], acc.2 ++ [y]) vs

/-- The ring loop on a raw polygon: skip `None` rings, thread the
accumulator, propagate a raised `KeyError`. -/
def rawPolygonCollect (acc : List F × List F) : RawPolygon → Except Unit (List F × List F)
  | [] => Except.ok acc
  | none :: rs => rawPolygonCollect acc rs
  | some r :: rs =>
    match rawRingCollect acc r with
    | Except.error e => Except.error e
    | Except.ok acc2 => rawPolygonCollect acc2 rs

/-- The polygon loop on a raw multipolygon: skip `None` polygons, thread
the accumulator, propagate a raised `KeyError`. -/
def rawMultiPolygonCollect (acc : List F × List F) : RawMultiPolygon → Except Unit (List F × List F)
  | [] => Except.ok acc
  | none :: ps => rawMultiPolygonCollect acc ps
  | some p :: ps =>
    match rawPolygonCollect acc p with
    | Except.error e => Except.error e
    | Except.ok acc2 => rawMultiPolygonCollect acc2 ps

/-- A raw vertex is malformed when it lacks the `x` or the `y` key. -/
def RawVertex.malformed (v : RawVertex) : Bool :=
  v.xField.isNone || v.yField.isNone

/-- A raw ring contains a present malformed vertex. -/
def ringHasMalformed (r : RawRing) : Bool :=
  r.any (fun v => match v with
    | none => false
    | some v => v.malformed)

/-- A raw polygon contains (in a present ring) a present malformed vertex. -/
def polygonHasMalformed (p : RawPolygon) : Bool :=
  p.any (fun r => match r with
    | none => false
    | some r => ringHasMalformed r)

/-- A raw multipolygon contains (in present polygons/rings) a present
malformed vertex. -/
def multiPolygonHasMalformed (m : RawMultiPolygon) : Bool :=
  m.any (fun p => match p with
    | none => false
    | some p => polygonHasMalformed p)

/-- Order embedding of non-NaN model floats into the linear order
`WithBot (WithTop ℚ)` (`-inf ↦ ⊥`, `+inf ↦ ⊤`).  `nan` is mapped to `⊥`
for totality, but every lemma using `emb` carries a no-NaN hypothesis. -/
def emb : F → WithBot (WithTop ℚ)
  | F.nan => ⊥
  | F.ninf => ⊥
  | F.pinf => ((⊤ : WithTop ℚ) : WithBot (WithTop ℚ))
  | F.val q => ((q : WithTop ℚ) : WithBot (WithTop ℚ))

/- ------------------------------------------------------------------
Helper lemmas about the float model and Python `min`/`max`.
------------------------------------------------------------------ -/

theorem flt_iff (a b : F) (ha : a ≠ F.nan) (hb : b ≠ F.nan) :
    flt a b = true ↔ emb a < emb b := by
  cases a <;> cases b <;>
    first
      | (simp [flt, emb, WithBot.bot_lt_coe, WithBot.coe_lt_coe, WithTop.coe_lt_top,
          WithTop.coe_lt_coe] at *
         done)
      | (simp [flt, emb] at *
         exact WithBot.coe_lt_coe.mpr (WithTop.coe_lt_top _))

theorem fle_iff (a b : F) (ha : a ≠ F.nan) (hb : b ≠ F.nan) :
    fle a b = true ↔ emb a ≤ emb b := by
  cases a <;> cases b <;>
    simp [fle, emb, bot_le, le_top, WithBot.coe_le_coe, WithTop.coe_le_coe,
      WithBot.coe_le_coe] at *

theorem emb_inj (a b : F) (ha : a ≠ F.nan) (hb : b ≠ F.nan) :
    emb a = emb b → a = b := by
  cases a <;> cases b <;> simp [emb] at *

theorem pymin_nil (x : F) : pymin x [] = x := rfl

theorem pymin_cons (x y : F) (ys : List F) :
    pymin x (y :: ys) = pymin (if flt y x then y else x) ys := rfl

theorem pymax_nil (x : F) : pymax x [] = x := rfl

theorem pymax_cons (x y : F) (ys : List F) :
    pymax x (y :: ys) = pymax (if flt x y then y else x) ys := rfl

/-- Python `min` over a nonempty list returns one of its elements. -/
theorem pymin_mem (x : F) (xs : List F) : pymin x xs ∈ x :: xs := by
  induction xs generalizing x with
  | nil => simp [pymin_nil]
  | cons y ys ih =>
    rw [pymin_cons]
    rcases List.mem_cons.mp (ih (if flt y x then y else x)) with h | h
    · rw [h]
      split <;> simp
    · simp [List.mem_cons.mpr, h]

/-- Python `max` over a nonempty list returns one of its elements. -/
theorem pymax_mem (x : F) (xs : List F) : pymax x xs ∈ x :: xs := by
  induction xs generalizing x with
  | nil => simp [pymax_nil]
  | cons y ys ih =>
    rw [pymax_cons]
    rcases List.mem_cons.mp (ih (if flt x y then y else x)) with h | h
    · rw [h]
      split <;> simp
    · simp [List.mem_cons.mpr, h]

/-- On a NaN-free nonempty list, Python `min` is a lower bound (in the
extended-rational order). -/
theorem pymin_le (x : F) (xs : List F) (h : ∀ y ∈ x :: xs, y ≠ F.nan) :
    ∀ y ∈ x :: xs, emb (pymin x xs) ≤ emb y := by
  induction xs generalizing x with
  | nil =>
    intro y hy
    rcases List.mem_singleton.mp hy with rfl
    simp [pymin_nil]
  | cons z zs ih =>
    have hx : x ≠ F.nan := h x (by simp)
    have hz : z ≠ F.nan := h z (by simp)
    set x2 := if flt z x then z else x with hx2
    have hx2n : x2 ≠ F.nan := by
      rw [hx2]; split <;> assumption
    have hle_x : emb x2 ≤ emb x := by
      rw [hx2]; split
      · exact le_of_lt ((flt_iff z x hz hx).mp (by assumption))
      · exact le_refl _
    have hle_z : emb x2 ≤ emb z := by
      rw [hx2]; split
      · exact le_refl _
      · exact le_of_not_lt (fun hlt => by
          simp [(flt_iff z x hz hx).mpr hlt] at *)
    have hall : ∀ y ∈ x2 :: zs, y ≠ F.nan := by
      intro y hy
      rcases List.mem_cons.mp hy with rfl | hy
      · exact hx2n
      · exact h y (by simp [hy])
    have ihh := ih x2 hall
    intro y hy
    rw [pymin_cons, ← hx2]
    rcases List.mem_cons.mp hy with rfl | hy
    · exact le_trans (ihh x2 (by simp)) hle_x
    · rcases List.mem_cons.mp hy with rfl | hy
      · exact le_trans (ihh x2 (by simp)) hle_z
      · exact ihh y (by simp [hy])

/-- On a NaN-free nonempty list, Python `max` is an upper bound (in the
extended-rational order). -/
theorem pymax_ge (x : F) (xs : List F) (h : ∀ y ∈ x :: xs, y ≠ F.nan) :
    ∀ y ∈ x :: xs, emb y ≤ emb (pymax x xs) := by
  induction xs generalizing x with
  | nil =>
    intro y hy
    rcases List.mem_singleton.mp hy with rfl
    simp [pymax_nil]
  | cons z zs ih =>
    have hx : x ≠ F.nan := h x (by simp)
    have hz : z ≠ F.nan := h z (by simp)
    set x2 := if flt x z then z else x with hx2
    have hx2n : x2 ≠ F.nan := by
      rw [hx2]; split <;> assumption
    have hge_x : emb x ≤ emb x2 := by
      rw [hx2]; split
      · exact le_of_lt ((flt_iff x z hx hz).mp (by assumption))
      · exact le_refl _
    have hge_z : emb z ≤ emb x2 := by
      rw [hx2]; split
      · exact le_refl _
      · exact le_of_not_lt (fun hlt => by
          simp [(flt_iff x z hx hz).mpr hlt] at *)
    have hall : ∀ y ∈ x2 :: zs, y ≠ F.nan := by
      intro y hy
      rcases List.mem_cons.mp hy with rfl | hy
      · exact hx2n
      · exact h y (by simp [hy])
    have ihh := ih x2 hall
    intro y hy
    rw [pymax_cons, ← hx2]
    rcases List.mem_cons.mp hy with rfl | hy
    · exact le_trans hge_x (ihh x2 (by simp))
    · rcases List.mem_cons.mp hy with rfl | hy
      · exact le_trans hge_z (ihh x2 (by simp))
      · exact ihh y (by simp [hy])

/-- Writing the rows into a correctly sized seeded array overwrites the
tail from position `i` on: no seed at or past `i` survives. -/
theorem fillRows_eq (pick : Cell → F) (cs : List Cell) :
    ∀ (i : Nat) (arr : List F), arr.length = i + cs.length →
      fillRows pick cs i arr = arr.take i ++ cs.map pick := by
  induction cs with
  | nil =>
    intro i arr h
    simp only [List.length_nil] at h
    simp only [fillRows, List.map_nil, List.append_nil]
    exact (List.take_of_length_le (by omega)).symm
  | cons c cs ih =>
    intro i arr h
    simp only [List.length_cons] at h
    have hlen : i < arr.length := by omega
    rw [fillRows, ih (i + 1) (arr.set i (pick c)) (by simp [h]; omega)]
    rw [List.set_eq_take_cons_drop _ hlen]
    rw [List.take_append_eq_append_take]
    have hti : (arr.take i).length = i := by
      simp [List.length_take]
      omega
    rw [List.take_of_length_le (by omega), hti]
    simp

/-- The four output arrays are exactly the per-row bbox quadruples in
input order (the infinite seeds are all overwritten). -/
theorem compute_eq_map (col : List Cell) :
    compute_bbox_from_geoarrow_polygon col =
      (col.map (fun c => (rowBBox c).1), col.map (fun c => (rowBBox c).2.1),
       col.map (fun c => (rowBBox c).2.2.1), col.map (fun c => (rowBBox c).2.2.2)) := by
  unfold compute_bbox_from_geoarrow_polygon
  rw [fillRows_eq _ _ 0 _ (by simp), fillRows_eq _ _ 0 _ (by simp),
    fillRows_eq _ _ 0 _ (by simp), fillRows_eq _ _ 0 _ (by simp)]
  simp

/-- A row with no usable vertex yields the NaN sentinel quadruple. -/
theorem rowBBox_of_no_vertices (c : Cell) (h : cellVertices c = []) :
    rowBBox c = (F.nan, F.nan, F.nan, F.nan) := by
  match c with
  | none => rfl
  | some m =>
    have hm : multiPolygonVertices m = [] := h
    simp [rowBBox, hm]

/-- Each component of a row's bbox is the NaN sentinel or is attained by
a usable vertex of that row. -/
theorem rowBBox_mem_or_nan (c : Cell) :
    ((rowBBox c).1 = F.nan ∨ ∃ v ∈ cellVertices c, (rowBBox c).1 = v.1) ∧
    ((rowBBox c).2.1 = F.nan ∨ ∃ v ∈ cellVertices c, (rowBBox c).2.1 = v.2) ∧
    ((rowBBox c).2.2.1 = F.nan ∨ ∃ v ∈ cellVertices c, (rowBBox c).2.2.1 = v.1) ∧
    ((rowBBox c).2.2.2 = F.nan ∨ ∃ v ∈ cellVertices c, (rowBBox c).2.2.2 = v.2) := by
  match c with
  | none => simp [rowBBox]
  | some m =>
    rcases hmv : multiPolygonVertices m with _ | ⟨v, vs⟩
    · simp [rowBBox, hmv]
    · have hx1 := pymin_mem v.1 (vs.map Prod.fst)
      have hx2 := pymax_mem v.1 (vs.map Prod.fst)
      have hy1 := pymin_mem v.2 (vs.map Prod.snd)
      have hy2 := pymax_mem v.2 (vs.map Prod.snd)
      rw [show v.1 :: vs.map Prod.fst = (v :: vs).map Prod.fst from rfl] at hx1 hx2
      rw [show v.2 :: vs.map Prod.snd = (v :: vs).map Prod.snd from rfl] at hy1 hy2
      have hcv : cellVertices (some m) = v :: vs := by simp [cellVertices, hmv]
      rw [hcv]
      simp only [rowBBox, hmv]
      refine ⟨Or.inr ?_, Or.inr ?_, Or.inr ?_, Or.inr ?_⟩
      · obtain ⟨w, hw, he⟩ := List.mem_map.mp hx1
        exact ⟨w, hw, he.symm⟩
      · obtain ⟨w, hw, he⟩ := List.mem_map.mp hy1
        exact ⟨w, hw, he.symm⟩
      · obtain ⟨w, hw, he⟩ := List.mem_map.mp hx2
        exact ⟨w, hw, he.symm⟩
      · obtain ⟨w, hw, he⟩ := List.mem_map.mp hy2
        exact ⟨w, hw, he.symm⟩

/-- Python `min` over a NaN-free nonempty list depends only on the
multiset of elements. -/
theorem pymin_eq_of_perm (x1 : F) (xs1 : List F) (x2 : F) (xs2 : List F)
    (hp : (x1 :: xs1).Perm (x2 :: xs2)) (h : ∀ y ∈ x1 :: xs1, y ≠ F.nan) :
    pymin x1 xs1 = pymin x2 xs2 := by
  have h2 : ∀ y ∈ x2 :: xs2, y ≠ F.nan := fun y hy => h y (hp.mem_iff.mpr hy)
  have m1 := pymin_mem x1 xs1
  have m2 := pymin_mem x2 xs2
  have le1 := pymin_le x1 xs1 h (pymin x2 xs2) (hp.mem_iff.mpr m2)
  have le2 := pymin_le x2 xs2 h2 (pymin x1 xs1) (hp.mem_iff.mp m1)
  exact emb_inj _ _ (h _ m1) (h2 _ m2) (le_antisymm le1 le2)

/-- Python `max` over a NaN-free nonempty list depends only on the
multiset of elements. -/
theorem pymax_eq_of_perm (x1 : F) (xs1 : List F) (x2 : F) (xs2 : List F)
    (hp : (x1 :: xs1).Perm (x2 :: xs2)) (h : ∀ y ∈ x1 :: xs1, y ≠ F.nan) :
    pymax x1 xs1 = pymax x2 xs2 := by
  have h2 : ∀ y ∈ x2 :: xs2, y ≠ F.nan := fun y hy => h y (hp.mem_iff.mpr hy)
  have m1 := pymax_mem x1 xs1
  have m2 := pymax_mem x2 xs2
  have le1 := pymax_ge x1 xs1 h (pymax x2 xs2) (hp.mem_iff.mpr m2)
  have le2 := pymax_ge x2 xs2 h2 (pymax x1 xs1) (hp.mem_iff.mp m1)
  exact emb_inj _ _ (h _ m1) (h2 _ m2) (le_antisymm le2 le1)

/-- A raised `KeyError` in the vertex loop propagates: a ring holding a
present malformed vertex makes the collection fail, whatever was
accumulated before. -/
theorem rawRingCollect_err (r : RawRing) (hr : ringHasMalformed r = true) :
    ∀ acc, rawRingCollect acc r = Except.error () := by
  induction r with
  | nil => simp [ringHasMalformed] at hr
  | cons v vs ih =>
    intro acc
    match v with
    | none =>
      simp only [ringHasMalformed, List.any_cons] at hr
      exact ih (by simpa [ringHasMalformed] using hr) acc
    | some w =>
      simp only [ringHasMalformed, List.any_cons] at hr
      rcases Bool.or_eq_true_iff.mp hr with hw | htail
      · rw [rawRingCollect]
        rcases hx : w.xField with _ | x
        · rfl
        · rcases hy : w.yField with _ | y
          · simp [hx]
          · exfalso
            simp [RawVertex.malformed, hx, hy] at hw
      · rw [rawRingCollect]
        rcases hx : w.xField with _ | x
        · rfl
        · rcases hy : w.yField with _ | y
          · simp [hx]
          · simp only [hx, hy]
            exact ih (by simpa [ringHasMalformed] using htail) _

/-- Error propagation one level up: a polygon holding a present
malformed vertex makes the collection fail. -/
theorem rawPolygonCollect_err (p : RawPolygon) (hp : polygonHasMalformed p = true) :
    ∀ acc, rawPolygonCollect acc p = Except.error () := by
  induction p with
  | nil => simp [polygonHasMalformed] at hp
  | cons r rs ih =>
    intro acc
    match r with
    | none =>
      simp only [polygonHasMalformed, List.any_cons] at hp
      exact ih (by simpa [polygonHasMalformed] using hp) acc
    | some ring =>
      simp only [polygonHasMalformed, List.any_cons] at hp
      rcases Bool.or_eq_true_iff.mp hp with hr | htail
      · rw [rawPolygonCollect, rawRingCollect_err ring hr acc]
      · rw [rawPolygonCollect]
        rcases hres : rawRingCollect acc ring with e | acc2
        · cases e; rfl
        · exact ih (by simpa [polygonHasMalformed] using htail) acc2

/-- Error propagation to the top level: a multipolygon holding a present
malformed vertex makes the whole collection fail. -/
theorem rawMultiPolygonCollect_err (m : RawMultiPolygon)
    (hm : multiPolygonHasMalformed m = true) :
    ∀ acc, rawMultiPolygonCollect acc m = Except.error () := by
  induction m with
  | nil => simp [multiPolygonHasMalformed] at hm
  | cons p ps ih =>
    intro acc
    match p with
    | none =>
      simp only [multiPolygonHasMalformed, List.any_cons] at hm
      exact ih (by simpa [multiPolygonHasMalformed] using hm) acc
    | some poly =>
      simp only [multiPolygonHasMalformed, List.any_cons] at hm
      rcases Bool.or_eq_true_iff.mp hm with hpp | htail
      · rw [rawMultiPolygonCollect, rawPolygonCollect_err poly hpp acc]
      · rw [rawMultiPolygonCollect]
        rcases hres : rawPolygonCollect acc poly with e | acc2
        · cases e; rfl
        · exact ih (by simpa [multiPolygonHasMalformed] using htail) acc2

/-- No component of a row's bbox is an infinity unless some coordinate
of that row is itself an infinity. -/
theorem rowBBox_no_inf (c : Cell)
    (h : ∀ v ∈ cellVertices c, v.1 ≠ F.pinf ∧ v.1 ≠ F.ninf ∧ v.2 ≠ F.pinf ∧ v.2 ≠ F.ninf) :
    ((rowBBox c).1 ≠ F.pinf ∧ (rowBBox c).1 ≠ F.ninf) ∧
    ((rowBBox c).2.1 ≠ F.pinf ∧ (rowBBox c).2.1 ≠ F.ninf) ∧
    ((rowBBox c).2.2.1 ≠ F.pinf ∧ (rowBBox c).2.2.1 ≠ F.ninf) ∧
    ((rowBBox c).2.2.2 ≠ F.pinf ∧ (rowBBox c).2.2.2 ≠ F.ninf) := by
  obtain ⟨h1, h2, h3, h4⟩ := rowBBox_mem_or_nan c
  refine ⟨?_, ?_, ?_, ?_⟩
  · rcases h1 with he | ⟨v, hv, he⟩
    · rw [he]; exact ⟨by decide, by decide⟩
    · rw [he]; exact ⟨(h v hv).1, (h v hv).2.1⟩
  · rcases h2 with he | ⟨v, hv, he⟩
    · rw [he]; exact ⟨by decide, by decide⟩
    · rw [he]; exact ⟨(h v hv).2.2.1, (h v hv).2.2.2⟩
  · rcases h3 with he | ⟨v, hv, he⟩
    · rw [he]; exact ⟨by decide, by decide⟩
    · rw [he]; exact ⟨(h v hv).1, (h v hv).2.1⟩
  · rcases h4 with he | ⟨v, hv, he⟩
    · rw [he]; exact ⟨by decide, by decide⟩
    · rw [he]; exact ⟨(h v hv).2.2.1, (h v hv).2.2.2⟩

/- ------------------------------------------------------------------
Claim theorems.
------------------------------------------------------------------ -/

/-- Claim C1 (amended: NaN-free coordinates). For a row with at least one
usable vertex whose collected coordinates contain no NaN, the computed
quadruple bounds every usable vertex (`minX <= x <= maxX`,
`minY <= y <= maxY` in Python float order), satisfies `minX <= maxX` and
`minY <= maxY`, and each of the four components is attained by some
usable vertex of the row. -/
theorem rowBBox_bounds_and_attained (m : GMultiPolygon)
    (hne : multiPolygonVertices m ≠ [])
    (hn : ∀ v ∈ multiPolygonVertices m, v.1 ≠ F.nan ∧ v.2 ≠ F.nan) :
    (∀ v ∈ multiPolygonVertices m,
        fle (rowBBox (some m)).1 v.1 = true ∧ fle v.1 (rowBBox (some m)).2.2.1 = true ∧
        fle (rowBBox (some m)).2.1 v.2 = true ∧ fle v.2 (rowBBox (some m)).2.2.2 = true) ∧
    fle (rowBBox (some m)).1 (rowBBox (some m)).2.2.1 = true ∧
    fle (rowBBox (some m)).2.1 (rowBBox (some m)).2.2.2 = true ∧
    (∃ v ∈ multiPolygonVertices m, (rowBBox (some m)).1 = v.1) ∧
    (∃ v ∈ multiPolygonVertices m, (rowBBox (some m)).2.1 = v.2) ∧
    (∃ v ∈ multiPolygonVertices m, (rowBBox (some m)).2.2.1 = v.1) ∧
    (∃ v ∈ multiPolygonVertices m, (rowBBox (some m)).2.2.2 = v.2) := by
  rcases hmv : multiPolygonVertices m with _ | ⟨v, vs⟩
  · exact absurd hmv hne
  rw [hmv] at hn
  simp only [rowBBox, hmv]
  have hxeq : v.1 :: vs.map Prod.fst = (v :: vs).map Prod.fst := rfl
  have hyeq : v.2 :: vs.map Prod.snd = (v :: vs).map Prod.snd := rfl
  have hnx : ∀ y ∈ v.1 :: vs.map Prod.fst, y ≠ F.nan := by
    rw [hxeq]
    intro y hy
    obtain ⟨w, hw, rfl⟩ := List.mem_map.mp hy
    exact (hn w hw).1
  have hny : ∀ y ∈ v.2 :: vs.map Prod.snd, y ≠ F.nan := by
    rw [hyeq]
    intro y hy
    obtain ⟨w, hw, rfl⟩ := List.mem_map.mp hy
    exact (hn w hw).2
  have hminx := pymin_le v.1 (vs.map Prod.fst) hnx
  have hmaxx := pymax_ge v.1 (vs.map Prod.fst) hnx
  have hminy := pymin_le v.2 (vs.map Prod.snd) hny
  have hmaxy := pymax_ge v.2 (vs.map Prod.snd) hny
  have hmx := pymin_mem v.1 (vs.map Prod.fst)
  have hMx := pymax_mem v.1 (vs.map Prod.fst)
  have hmy := pymin_mem v.2 (vs.map Prod.snd)
  have hMy := pymax_mem v.2 (vs.map Prod.snd)
  have hmxn : pymin v.1 (vs.map Prod.fst) ≠ F.nan := hnx _ hmx
  have hMxn : pymax v.1 (vs.map Prod.fst) ≠ F.nan := hnx _ hMx
  have hmyn : pymin v.2 (vs.map Prod.snd) ≠ F.nan := hny _ hmy
  have hMyn : pymax v.2 (vs.map Prod.snd) ≠ F.nan := hny _ hMy
  refine ⟨?_, ?_, ?_, ?_, ?_, ?_, ?_⟩
  · intro w hw
    have hwx : w.1 ∈ v.1 :: vs.map Prod.fst := by
      rw [hxeq]; exact List.mem_map_of_mem _ hw
    have hwy : w.2 ∈ v.2 :: vs.map Prod.snd := by
      rw [hyeq]; exact List.mem_map_of_mem _ hw
    exact ⟨(fle_iff _ _ hmxn (hn w hw).1).mpr (hminx _ hwx),
           (fle_iff _ _ (hn w hw).1 hMxn).mpr (hmaxx _ hwx),
           (fle_iff _ _ hmyn (hn w hw).2).mpr (hminy _ hwy),
           (fle_iff _ _ (hn w hw).2 hMyn).mpr (hmaxy _ hwy)⟩
  · exact (fle_iff _ _ hmxn hMxn).mpr
      (le_trans (hminx v.1 (by simp)) (hmaxx v.1 (by simp)))
  · exact (fle_iff _ _ hmyn hMyn).mpr
      (le_trans (hminy v.2 (by simp)) (hmaxy v.2 (by simp)))
  · rw [hxeq] at hmx
    obtain ⟨w, hw, he⟩ := List.mem_map.mp hmx
    exact ⟨w, hw, he.symm⟩
  · rw [hyeq] at hmy
    obtain ⟨w, hw, he⟩ := List.mem_map.mp hmy
    exact ⟨w, hw, he.symm⟩
  · rw [hxeq] at hMx
    obtain ⟨w, hw, he⟩ := List.mem_map.mp hMx
    exact ⟨w, hw, he.symm⟩
  · rw [hyeq] at hMy
    obtain ⟨w, hw, he⟩ := List.mem_map.mp hMy
    exact ⟨w, hw, he.symm⟩

/-- Witness for C1 at Scenario A (rectangle `(0,0),(0,4),(3,4),(3,0)`). -/
theorem rowBBox_bounds_and_attained_witness :
    fle (rowBBox (some [some [some [some (F.val 0, F.val 0), some (F.val 0, F.val 4),
        some (F.val 3, F.val 4), some (F.val 3, F.val 0)]]])).1
      (rowBBox (some [some [some [some (F.val 0, F.val 0), some (F.val 0, F.val 4),
        some (F.val 3, F.val 4), some (F.val 3, F.val 0)]]])).2.2.1 = true :=
  (rowBBox_bounds_and_attained _ (by decide) (by decide)).2.1

/-- Counterexample to C1 as stated: a row whose single usable vertex has
a NaN x-coordinate has at least one usable vertex, yet its quadruple
violates `minX <= maxX` (Python `nan <= nan` is false). -/
theorem rowBBox_bounds_nan_cex :
    multiPolygonVertices [some [some [some (F.nan, F.val 0)]]] ≠ [] ∧
    fle (rowBBox (some [some [some [some (F.nan, F.val 0)]]])).1
      (rowBBox (some [some [some [some (F.nan, F.val 0)]]])).2.2.1 = false := by
  decide

/-- Claim C2. A row with zero usable vertices — a null cell, an empty
multipolygon, or one containing only Absent polygons/rings/vertices —
yields the quadruple `(NaN, NaN, NaN, NaN)`. -/
theorem rowBBox_nan_sentinel (c : Cell) (h : cellVertices c = []) :
    rowBBox c = (F.nan, F.nan, F.nan, F.nan) :=
  rowBBox_of_no_vertices c h

/-- Witness for C2: a multipolygon holding one Absent polygon and one
polygon made of an Absent ring and a ring of one Absent vertex. -/
theorem rowBBox_nan_sentinel_witness :
    cellVertices (some [none, some [none, some [none]]]) = [] ∧
    rowBBox (some [none, some [none, some [none]]]) = (F.nan, F.nan, F.nan, F.nan) :=
  ⟨by decide, rowBBox_nan_sentinel _ (by decide)⟩

/-- Claim C3. The four output sequences each have the length of the
input column, and the entry at output index `i` is the bbox quadruple of
the geometry cell at input index `i`. -/
theorem compute_bbox_shape_preserved (col : List Cell) :
    ((compute_bbox_from_geoarrow_polygon col).1.length = col.length ∧
     (compute_bbox_from_geoarrow_polygon col).2.1.length = col.length ∧
     (compute_bbox_from_geoarrow_polygon col).2.2.1.length = col.length ∧
     (compute_bbox_from_geoarrow_polygon col).2.2.2.length = col.length) ∧
    ∀ (i : Nat) (h : i < col.length),
      (compute_bbox_from_geoarrow_polygon col).1[i]? = some (rowBBox (col.get ⟨i, h⟩)).1 ∧
      (compute_bbox_from_geoarrow_polygon col).2.1[i]? = some (rowBBox (col.get ⟨i, h⟩)).2.1 ∧
      (compute_bbox_from_geoarrow_polygon col).2.2.1[i]? = some (rowBBox (col.get ⟨i, h⟩)).2.2.1 ∧
      (compute_bbox_from_geoarrow_polygon col).2.2.2[i]? = some (rowBBox (col.get ⟨i, h⟩)).2.2.2 := by
  rw [compute_eq_map]
  constructor
  · simp
  · intro i h
    simp [List.getElem?_map, List.getElem?_eq_getElem h]

/-- Witness for C3 on the one-row column holding a null cell. -/
theorem compute_bbox_shape_preserved_witness :
    (compute_bbox_from_geoarrow_polygon [(none : Cell)]).1.length = 1 ∧
    (compute_bbox_from_geoarrow_polygon [(none : Cell)]).1[0]? =
      some (rowBBox (([(none : Cell)]).get ⟨0, by decide⟩)).1 :=
  ⟨(compute_bbox_shape_preserved [(none : Cell)]).1.1,
   ((compute_bbox_shape_preserved [(none : Cell)]).2 0 (by decide)).1⟩

/-- Claim C4 (amended: no input coordinate is itself an infinity). The
infinite accumulator seeds are never exposed: when no vertex coordinate
of the column is `+inf` or `-inf`, no value of the four output sequences
is `+inf` or `-inf` (each output is the NaN sentinel or an attained
coordinate). -/
theorem compute_bbox_no_infinities (col : List Cell)
    (h : ∀ c ∈ col, ∀ v ∈ cellVertices c,
        v.1 ≠ F.pinf ∧ v.1 ≠ F.ninf ∧ v.2 ≠ F.pinf ∧ v.2 ≠ F.ninf) :
    (∀ z ∈ (compute_bbox_from_geoarrow_polygon col).1, z ≠ F.pinf ∧ z ≠ F.ninf) ∧
    (∀ z ∈ (compute_bbox_from_geoarrow_polygon col).2.1, z ≠ F.pinf ∧ z ≠ F.ninf) ∧
    (∀ z ∈ (compute_bbox_from_geoarrow_polygon col).2.2.1, z ≠ F.pinf ∧ z ≠ F.ninf) ∧
    (∀ z ∈ (compute_bbox_from_geoarrow_polygon col).2.2.2, z ≠ F.pinf ∧ z ≠ F.ninf) := by
  rw [compute_eq_map]
  refine ⟨?_, ?_, ?_, ?_⟩
  · intro z hz
    obtain ⟨c, hc, rfl⟩ := List.mem_map.mp hz
    exact (rowBBox_no_inf c (h c hc)).1
  · intro z hz
    obtain ⟨c, hc, rfl⟩ := List.mem_map.mp hz
    exact (rowBBox_no_inf c (h c hc)).2.1
  · intro z hz
    obtain ⟨c, hc, rfl⟩ := List.mem_map.mp hz
    exact (rowBBox_no_inf c (h c hc)).2.2.1
  · intro z hz
    obtain ⟨c, hc, rfl⟩ := List.mem_map.mp hz
    exact (rowBBox_no_inf c (h c hc)).2.2.2

/-- Witness for C4 on a one-row column with the single vertex `(1, 2)`:
the `minx` output value `1` is neither infinity. -/
theorem compute_bbox_no_infinities_witness :
    F.val 1 ∈ (compute_bbox_from_geoarrow_polygon
      [some [some [some [some (F.val 1, F.val 2)]]]]).1 ∧
    F.val 1 ≠ F.pinf ∧ F.val 1 ≠ F.ninf :=
  ⟨by decide,
   (compute_bbox_no_infinities [some [some [some [some (F.val 1, F.val 2)]]]]
      (by decide)).1 (F.val 1) (by decide)⟩

/-- Counterexample to C4 as stated: a row whose single vertex has
x-coordinate `+inf` puts `+inf` into both the `minx` and the `maxx`
output sequences. -/
theorem compute_bbox_infinity_cex :
    (compute_bbox_from_geoarrow_polygon [some [some [some [some (F.pinf, F.val 0)]]]]).1
      = [F.pinf] ∧
    (compute_bbox_from_geoarrow_polygon [some [some [some [some (F.pinf, F.val 0)]]]]).2.2.1
      = [F.pinf] := by
  decide

/-- Claim C5 (amended: NaN-free coordinates). For a row whose collected
coordinates contain no NaN, any permutation of the visited vertices
yields an identical bbox quadruple. -/
theorem rowBBox_perm_invariant (m1 m2 : GMultiPolygon)
    (hn : ∀ v ∈ multiPolygonVertices m1, v.1 ≠ F.nan ∧ v.2 ≠ F.nan)
    (hp : (multiPolygonVertices m1).Perm (multiPolygonVertices m2)) :
    rowBBox (some m1) = rowBBox (some m2) := by
  rcases hmv1 : multiPolygonVertices m1 with _ | ⟨v1, vs1⟩
  · rw [hmv1] at hp
    have hmv2 : multiPolygonVertices m2 = [] := hp.symm.eq_nil
    rw [rowBBox_of_no_vertices (some m1) (by simpa [cellVertices] using hmv1),
        rowBBox_of_no_vertices (some m2) (by simpa [cellVertices] using hmv2)]
  · rcases hmv2 : multiPolygonVertices m2 with _ | ⟨v2, vs2⟩
    · rw [hmv1, hmv2] at hp
      exact absurd hp.eq_nil (by simp)
    · rw [hmv1, hmv2] at hp
      rw [hmv1] at hn
      simp only [rowBBox, hmv1, hmv2]
      have hpx : (v1.1 :: vs1.map Prod.fst).Perm (v2.1 :: vs2.map Prod.fst) := by
        simpa using hp.map Prod.fst
      have hpy : (v1.2 :: vs1.map Prod.snd).Perm (v2.2 :: vs2.map Prod.snd) := by
        simpa using hp.map Prod.snd
      have hnx : ∀ y ∈ v1.1 :: vs1.map Prod.fst, y ≠ F.nan := by
        rw [show v1.1 :: vs1.map Prod.fst = (v1 :: vs1).map Prod.fst from rfl]
        intro y hy
        obtain ⟨w, hw, rfl⟩ := List.mem_map.mp hy
        exact (hn w hw).1
      have hny : ∀ y ∈ v1.2 :: vs1.map Prod.snd, y ≠ F.nan := by
        rw [show v1.2 :: vs1.map Prod.snd = (v1 :: vs1).map Prod.snd from rfl]
        intro y hy
        obtain ⟨w, hw, rfl⟩ := List.mem_map.mp hy
        exact (hn w hw).2
      rw [pymin_eq_of_perm _ _ _ _ hpx hnx, pymin_eq_of_perm _ _ _ _ hpy hny,
          pymax_eq_of_perm _ _ _ _ hpx hnx, pymax_eq_of_perm _ _ _ _ hpy hny]

/-- Witness for C5: one ring with two vertices versus the reversed ring. -/
theorem rowBBox_perm_invariant_witness :
    rowBBox (some [some [some [some (F.val 1, F.val 1), some (F.val 2, F.val 2)]]]) =
      rowBBox (some [some [some [some (F.val 2, F.val 2), some (F.val 1, F.val 1)]]]) :=
  rowBBox_perm_invariant _ _ (by decide) (by decide)

/-- Counterexample to C5 as stated ("for all vertex coordinate values"):
with a NaN x-coordinate present, reversing the two vertices of a ring
changes the quadruple (Python `min` keeps a leading NaN but never
switches to one). -/
theorem rowBBox_perm_dependence_cex :
    (multiPolygonVertices [some [some [some (F.nan, F.val 0), some (F.val 1, F.val 0)]]]).Perm
      (multiPolygonVertices [some [some [some (F.val 1, F.val 0), some (F.nan, F.val 0)]]]) ∧
    rowBBox (some [some [some [some (F.nan, F.val 0), some (F.val 1, F.val 0)]]]) ≠
      rowBBox (some [some [some [some (F.val 1, F.val 0), some (F.nan, F.val 0)]]]) := by
  decide

/-- Claim C6. Computing over two column halves separately and
concatenating gives the same four sequences as computing over the
concatenated column. -/
theorem compute_bbox_append (colA colB : List Cell) :
    (compute_bbox_from_geoarrow_polygon (colA ++ colB)).1 =
      (compute_bbox_from_geoarrow_polygon colA).1 ++
        (compute_bbox_from_geoarrow_polygon colB).1 ∧
    (compute_bbox_from_geoarrow_polygon (colA ++ colB)).2.1 =
      (compute_bbox_from_geoarrow_polygon colA).2.1 ++
        (compute_bbox_from_geoarrow_polygon colB).2.1 ∧
    (compute_bbox_from_geoarrow_polygon (colA ++ colB)).2.2.1 =
      (compute_bbox_from_geoarrow_polygon colA).2.2.1 ++
        (compute_bbox_from_geoarrow_polygon colB).2.2.1 ∧
    (compute_bbox_from_geoarrow_polygon (colA ++ colB)).2.2.2 =
      (compute_bbox_from_geoarrow_polygon colA).2.2.2 ++
        (compute_bbox_from_geoarrow_polygon colB).2.2.2 := by
  simp [compute_eq_map]

/-- Claim C7. When the bbox column names already exist in the table, the
augmenter is a silent no-op: the guard short-circuits, so no error is
raised, no columns are appended and no output is written. -/
theorem add_bbox_columns_skips_when_bbox_present (t : Table)
    (h1 : "bbox_minx" ∈ t.columnNames) (_h2 : "bbox_miny" ∈ t.columnNames)
    (_h3 : "bbox_maxx" ∈ t.columnNames) (_h4 : "bbox_maxy" ∈ t.columnNames) :
    add_bbox_columns t = AugmentResult.skipped := by
  simp [add_bbox_columns, h1]

/-- Witness for C7: a table already holding all four bbox columns. -/
theorem add_bbox_columns_skips_when_bbox_present_witness :
    add_bbox_columns ⟨[("bbox_minx", ColData.otherData), ("bbox_miny", ColData.otherData),
      ("bbox_maxx", ColData.otherData), ("bbox_maxy", ColData.otherData)]⟩ =
      AugmentResult.skipped :=
  add_bbox_columns_skips_when_bbox_present _ (by decide) (by decide) (by decide) (by decide)

/-- Claim C8 (amended: the table also lacks `bbox_minx`). A table with
no `geometry` column makes the augmenter fail with an error surfaced to
the caller and no output written — provided the idempotence guard did
not already short-circuit, i.e. `bbox_minx` is absent too. -/
theorem add_bbox_columns_fails_without_geometry (t : Table)
    (hg : "geometry" ∉ t.columnNames) (hm : "bbox_minx" ∉ t.columnNames) :
    add_bbox_columns t = AugmentResult.failed := by
  have hcol : t.column "geometry" = none := by
    unfold Table.column
    rw [List.find?_eq_none.mpr]
    · rfl
    · intro p hp
      simp only [beq_iff_eq]
      intro he
      exact hg (he ▸ List.mem_map_of_mem Prod.fst hp)
  simp [add_bbox_columns, hm, hcol]

/-- Witness for C8 at a table with a single unrelated column. -/
theorem add_bbox_columns_fails_without_geometry_witness :
    add_bbox_columns ⟨[("name", ColData.otherData)]⟩ = AugmentResult.failed :=
  add_bbox_columns_fails_without_geometry _ (by decide) (by decide)

/-- Counterexample to C8 as stated: a table with `bbox_minx` but no
`geometry` column does not fail — the guard returns silently first. -/
theorem add_bbox_columns_missing_geometry_cex :
    "geometry" ∉ Table.columnNames ⟨[("bbox_minx", ColData.otherData)]⟩ ∧
    add_bbox_columns ⟨[("bbox_minx", ColData.otherData)]⟩ = AugmentResult.skipped := by
  decide

/-- Claim C9 (amended: appending also requires a usable `geometry`
column). When `bbox_miny`, `bbox_maxx` or `bbox_maxy` is present but
`bbox_minx` is absent, the guard does not short-circuit; if the table
moreover has a `geometry` column holding geometry data, all four bbox
columns are appended anyway. -/
theorem add_bbox_columns_guard_only_checks_minx (t : Table) (g : List Cell)
    (_hother : "bbox_miny" ∈ t.columnNames ∨ "bbox_maxx" ∈ t.columnNames ∨
      "bbox_maxy" ∈ t.columnNames)
    (hm : "bbox_minx" ∉ t.columnNames) :
    add_bbox_columns t ≠ AugmentResult.skipped ∧
    (t.column "geometry" = some (ColData.geomData g) →
      add_bbox_columns t = AugmentResult.written ⟨t.cols ++
        [("bbox_minx", ColData.floatData (compute_bbox_from_geoarrow_polygon g).1),
         ("bbox_miny", ColData.floatData (compute_bbox_from_geoarrow_polygon g).2.1),
         ("bbox_maxx", ColData.floatData (compute_bbox_from_geoarrow_polygon g).2.2.1),
         ("bbox_maxy", ColData.floatData (compute_bbox_from_geoarrow_polygon g).2.2.2)]⟩) := by
  constructor
  · simp only [add_bbox_columns, if_neg hm]
    split <;> simp
  · intro hcol
    simp [add_bbox_columns, hm, hcol]

/-- Witness for C9: a table with `bbox_miny` (but no `bbox_minx`) and an
empty geometry column gets all four bbox columns appended. -/
theorem add_bbox_columns_guard_only_checks_minx_witness :
    add_bbox_columns ⟨[("bbox_miny", ColData.otherData),
        ("geometry", ColData.geomData [])]⟩ ≠ AugmentResult.skipped ∧
    add_bbox_columns ⟨[("bbox_miny", ColData.otherData),
        ("geometry", ColData.geomData [])]⟩ =
      AugmentResult.written ⟨[("bbox_miny", ColData.otherData),
        ("geometry", ColData.geomData []),
        ("bbox_minx", ColData.floatData []), ("bbox_miny", ColData.floatData []),
        ("bbox_maxx", ColData.floatData []), ("bbox_maxy", ColData.floatData [])]⟩ := by
  have h := add_bbox_columns_guard_only_checks_minx
    ⟨[("bbox_miny", ColData.otherData), ("geometry", ColData.geomData [])]⟩ []
    (Or.inl (by decide)) (by decide)
  exact ⟨h.1, (h.2 rfl).trans (by rfl)⟩

/-- Counterexample to C9 as stated: with `bbox_miny` present, `bbox_minx`
absent and no `geometry` column, the augmenter raises instead of
appending the four bbox columns. -/
theorem add_bbox_columns_guard_cex :
    "bbox_miny" ∈ Table.columnNames ⟨[("bbox_miny", ColData.otherData)]⟩ ∧
    "bbox_minx" ∉ Table.columnNames ⟨[("bbox_miny", ColData.otherData)]⟩ ∧
    add_bbox_columns ⟨[("bbox_miny", ColData.otherData)]⟩ = AugmentResult.failed := by
  decide

/-- Claim C10. A present vertex lacking the `x` or `y` key makes the
collection raise a `KeyError` (whatever was already accumulated), while
a vertex equal to `None` is silently skipped and contributes nothing. -/
theorem malformed_vertex_raises_none_skipped :
    (∀ (m : RawMultiPolygon), multiPolygonHasMalformed m = true →
        rawMultiPolygonCollect ([], []) m = Except.error ()) ∧
    (∀ (acc : List F × List F) (vs : RawRing),
        rawRingCollect acc (none :: vs) = rawRingCollect acc vs) :=
  ⟨fun m hm => rawMultiPolygonCollect_err m hm ([], []), fun _ _ => rfl⟩

/-- Witness for C10: a single present vertex whose dict lacks `x`. -/
theorem malformed_vertex_raises_none_skipped_witness :
    multiPolygonHasMalformed [some [some [some ⟨none, some (F.val 0)⟩]]] = true ∧
    rawMultiPolygonCollect ([], []) [some [some [some ⟨none, some (F.val 0)⟩]]] =
      Except.error () :=
  ⟨by decide, malformed_vertex_raises_none_skipped.1 _ (by decide)⟩

end DT
